import Mathlib

/-!
Verification of the page-layout engine, identifier deriver, payload
derivation and manifest merge of `streamdeck-youtube-emotes`.

The definitions below are a shallow embedding of `src/profile.rs` and
`src/main.rs`:
* machine integers (`u8`, `usize`) become `Nat`, with an explicit `% 256`
  where the source casts to `u8`;
* `HashMap<Position, Action>` becomes a function `Position → Option Action`
  (insert/remove become pointwise function update);
* the image bytes fetched over the network are taken as an already-resolved
  input list (`futures::future::join_all` preserves order and the layout
  consumes the fully resolved list);
* `serde_json::Value` becomes the `Json` inductive, and the observable
  outcomes of `fs::read_to_string` + `serde_json::from_str` become the
  `FileRead` inductive.
-/

namespace StreamDeck

/-- `bytes::Bytes`: an image payload, modelled as a list of byte values. -/
abbrev Bytes := List Nat

/-- A page identifier: the 16 bytes of a `uuid::Uuid`. -/
abbrev Uuid := List Nat

/-- `struct Emote { name, url }` from `src/profile.rs`. -/
structure Emote where
  name : String
  url : String
deriving DecidableEq

/-- `struct EmoteImage { emote, bytes }` from `src/profile.rs`. -/
structure EmoteImage where
  emote : Emote
  bytes : Bytes
deriving DecidableEq

/-- `struct Position { x: u8, y: u8 }` from `src/profile.rs`. -/
structure Position where
  x : Nat
  y : Nat
deriving DecidableEq

/-- `struct State` from `src/profile.rs` (style/caption metadata). -/
structure State where
  f_family : String
  f_size : String
  f_style : String
  f_underline : String
  image : String
  title : String
  title_alignment : String
  title_color : String
  title_show : String
deriving DecidableEq

/-- `impl Default for State` from `src/profile.rs`. -/
def State.default : State :=
  { f_family := ""
    f_size := "12"
    f_style := ""
    f_underline := "off"
    image := ""
    title := ""
    title_alignment := "bottom"
    title_color := "#fbfcff"
    title_show := "" }

/-- `State::new_image` from `src/profile.rs`. -/
def State.new_image : State :=
  { State.default with image := "state0.png" }

/-- `enum Settings` from `src/profile.rs`: the three button variants. -/
inductive Settings where
  | backToParent : Settings
  | openChild (profile_uuid : Uuid) : Settings
  | text (is_sending_enter : Bool) (pasted_text : String) : Settings
deriving DecidableEq

/-- `struct Action` from `src/profile.rs`. -/
structure Action where
  state : Nat
  states : List State
  name : String
  settings : Settings
  image : Option Bytes
deriving DecidableEq

/-- `enum DeviceModel` from `src/profile.rs`. -/
inductive DeviceModel where
  | standard : DeviceModel
  | xl : DeviceModel
  | mini : DeviceModel
deriving DecidableEq

/-- `DeviceModel::id` from `src/profile.rs`. -/
def DeviceModel.id : DeviceModel → String
  | .standard => "20GBA9901"
  | .xl => "20GAT9901"
  | .mini => "unknown"

/-- `DeviceModel::size` from `src/profile.rs`: `(width, height)`. -/
def DeviceModel.size : DeviceModel → Nat × Nat
  | .standard => (5, 3)
  | .xl => (4, 8)
  | .mini => (3, 2)

/-- `struct ProfileManifest` from `src/profile.rs`; the `HashMap` of
actions is modelled as a function from positions to optional actions. -/
structure ProfileManifest where
  actions : Position → Option Action
  device_model : DeviceModel
  device_uuid : String
  name : String
  version : String

/-! ## SHA-1 and name-based UUID derivation

`uuid_v5` in `src/profile.rs` calls `Uuid::new_v5`, the RFC 4122
name-based derivation: SHA-1 over namespace bytes followed by name bytes,
truncated to 16 bytes with the version and variant bits forced.  SHA-1 is
implemented here over byte lists, with 32-bit words as `Nat` reduced
`% 4294967296`. -/

/-- Rotate a 32-bit word (a `Nat` below `2 ^ 32`) left by `n` bits. -/
def rotl32 (n x : Nat) : Nat :=
  (x * 2 ^ n + x / 2 ^ (32 - n)) % 4294967296

/-- Big-endian bytes of `n`, `count` bytes wide. -/
def natToBytesBE : Nat → Nat → List Nat
  | 0, _ => []
  | c + 1, n => (n / 2 ^ (8 * c)) % 256 :: natToBytesBE c n

/-- The four big-endian bytes of a 32-bit word. -/
def wordToBytes (w : Nat) : List Nat :=
  [w / 2 ^ 24 % 256, w / 2 ^ 16 % 256, w / 2 ^ 8 % 256, w % 256]

/-- Group `count` big-endian 32-bit words out of a byte list. -/
def bytesToWords : Nat → List Nat → List Nat
  | 0, _ => []
  | c + 1, bs =>
      (bs.getD 0 0 * 2 ^ 24 + bs.getD 1 0 * 2 ^ 16 + bs.getD 2 0 * 2 ^ 8 + bs.getD 3 0)
        :: bytesToWords c (bs.drop 4)

/-- SHA-1 message padding: `0x80`, zeros to 56 mod 64, 8-byte bit length. -/
def sha1Pad (msg : List Nat) : List Nat :=
  let len := msg.length
  msg ++ [128] ++ List.replicate ((119 - len % 64) % 64) 0 ++ natToBytesBE 8 (len * 8)

/-- Split a byte list into `count` chunks of 64 bytes. -/
def chunksOf64 : Nat → List Nat → List (List Nat)
  | 0, _ => []
  | c + 1, bs => bs.take 64 :: chunksOf64 c (bs.drop 64)

/-- Extend the 16-word schedule by `count` further SHA-1 schedule words. -/
def sha1Extend (ws : List Nat) : Nat → List Nat
  | 0 => ws
  | c + 1 =>
      let i := ws.length
      let w := rotl32 1 ((ws.getD (i - 3) 0) ^^^ (ws.getD (i - 8) 0) ^^^
        (ws.getD (i - 14) 0) ^^^ (ws.getD (i - 16) 0))
      sha1Extend (ws ++ [w]) c

/-- One SHA-1 round: state `(a, b, c, d, e)` and `(round index, word)`. -/
def sha1Round (st : Nat × Nat × Nat × Nat × Nat) (iw : Nat × Nat) : Nat × Nat × Nat × Nat × Nat :=
  let a := st.1
  let b := st.2.1
  let c := st.2.2.1
  let d := st.2.2.2.1
  let e := st.2.2.2.2
  let i := iw.1
  let f :=
    if i < 20 then (b &&& c) ||| ((b ^^^ 4294967295) &&& d)
    else if i < 40 then b ^^^ c ^^^ d
    else if i < 60 then (b &&& c) ||| (b &&& d) ||| (c &&& d)
    else b ^^^ c ^^^ d
  let k :=
    if i < 20 then 1518500249
    else if i < 40 then 1859775393
    else if i < 60 then 2400959708
    else 3395469782
  let temp := (rotl32 5 a + f + e + k + iw.2) % 4294967296
  (temp, a, rotl32 30 b, c, d)

/-- Process one 64-byte SHA-1 chunk, updating the running hash words. -/
def sha1Chunk (h : Nat × Nat × Nat × Nat × Nat) (chunk : List Nat) : Nat × Nat × Nat × Nat × Nat :=
  let ws := sha1Extend (bytesToWords 16 chunk) 64
  let st := ws.enum.foldl sha1Round h
  ((h.1 + st.1) % 4294967296,
   (h.2.1 + st.2.1) % 4294967296,
   (h.2.2.1 + st.2.2.1) % 4294967296,
   (h.2.2.2.1 + st.2.2.2.1) % 4294967296,
   (h.2.2.2.2 + st.2.2.2.2) % 4294967296)

/-- SHA-1 digest (20 bytes) of a byte list. -/
def sha1 (msg : List Nat) : List Nat :=
  let padded := sha1Pad msg
  let h := (chunksOf64 (padded.length / 64) padded).foldl sha1Chunk
    (1732584193, 4023233417, 2562383102, 271733878, 3285377520)
  wordToBytes h.1 ++ wordToBytes h.2.1 ++ wordToBytes h.2.2.1 ++
    wordToBytes h.2.2.2.1 ++ wordToBytes h.2.2.2.2

/-- UTF-8 encoding of one character. -/
def encodeCharUtf8 (c : Char) : List Nat :=
  let n := c.toNat
  if n < 128 then [n]
  else if n < 2048 then [192 + n / 64, 128 + n % 64]
  else if n < 65536 then [224 + n / 4096, 128 + n / 64 % 64, 128 + n % 64]
  else [240 + n / 262144, 128 + n / 4096 % 64, 128 + n / 64 % 64, 128 + n % 64]

/-- UTF-8 bytes of a string (`str::as_bytes`). -/
def utf8Bytes (s : String) : List Nat :=
  (s.data.map encodeCharUtf8).flatten

/-- `Uuid::NAMESPACE_URL`: `6ba7b811-9dad-11d1-80b4-00c04fd430c8`. -/
def namespaceURL : List Nat :=
  [107, 167, 184, 17, 157, 173, 17, 209, 128, 180, 0, 192, 79, 212, 48, 200]

/-- `Uuid::new_v5`: SHA-1 of namespace ++ name, truncated to 16 bytes,
with byte 6 forced to version 5 and byte 8 forced to the RFC 4122
variant (`b6 & 0x0F | 0x50`, `b8 & 0x3F | 0x80`). -/
def uuidNewV5 (ns nameBytes : List Nat) : Uuid :=
  let d := (sha1 (ns ++ nameBytes)).take 16
  let d := d.set 6 (d.getD 6 0 % 16 + 80)
  d.set 8 (d.getD 8 0 % 64 + 128)

/-- `uuid_v5` from `src/profile.rs`: the page-identifier deriver. -/
def uuid_v5 (nm : String) (page : Nat) : Uuid :=
  let url := "https://github.com/walfie/streamdeck-youtube-emotes#" ++ nm ++
    "_page" ++ Nat.repr page
  uuidNewV5 namespaceURL (utf8Bytes url)

/-! ## Content-button payload derivation (`Emote::to_action`) -/

/-- `u8::make_ascii_uppercase` on a single byte: `a`–`z` map to `A`–`Z`. -/
def asciiUppercaseChar (c : Char) : Char :=
  if 97 ≤ c.toNat ∧ c.toNat ≤ 122 then Char.ofNat (c.toNat - 32) else c

/-- `Emote::to_action` from `src/profile.rs`.  The source uppercases the
byte range `0..1` of the label via `str::get_mut`, which succeeds exactly
when the first character is a single UTF-8 byte, i.e. a code point below
128. -/
def Emote.to_action (e : Emote) (pfx : String) (include_label : Bool) (image : Option Bytes) :
    Action :=
  let state := State.new_image
  let state := if include_label then { state with title := e.name } else state
  let nm :=
    if pfx ≠ "" ∧ e.name ≠ "" then
      match e.name.data with
      | [] => e.name
      | c :: rest => if c.toNat < 128 then String.mk (asciiUppercaseChar c :: rest) else e.name
    else e.name
  { name := "Text"
    state := 0
    states := [state]
    image := image
    settings := Settings.text false (":_" ++ pfx ++ nm ++ ":") }

/-- Follows the spec's words (§4.4): the payload label has its first
character ASCII-uppercased when both the prefix string and the label are
non-empty, and is the label verbatim otherwise. -/
def payloadLabelSpec (pfx label : String) : String :=
  if pfx ≠ "" ∧ label ≠ "" then
    match label.data with
    | [] => label
    | c :: rest => String.mk (asciiUppercaseChar c :: rest)
  else label

/-! ## Page layout engine (`ProfilesWithImages::new`) -/

/-- `Position::new(index % width, index / width)` for slot `index`, after
the source's `index as u8` cast (`% 256`). -/
def posOfIndex (width index : Nat) : Position :=
  ⟨index % 256 % width, index % 256 / width⟩

/-- The indexed insert/remove loop of `ProfileManifest::set_actions`:
slot `index` holding `some a` inserts at its grid position, `none`
removes. -/
def writeActions (width : Nat) : Nat → List (Option Action) →
    (Position → Option Action) → Position → Option Action
  | _, [], f => f
  | index, a :: rest, f =>
      writeActions width (index + 1) rest
        (fun p => if p = posOfIndex width index then a else f p)

/-- `ProfileManifest::set_actions` from `src/profile.rs`. -/
def ProfileManifest.set_actions (m : ProfileManifest) (actions : List (Option Action)) :
    ProfileManifest :=
  { m with actions := writeActions m.device_model.size.1 0 actions m.actions }

/-- The fresh `ProfileManifest` literal built inside
`ProfilesWithImages::new` (empty actions, version `"1.0"`). -/
def freshManifest (model : DeviceModel) (dev nm : String) : ProfileManifest :=
  { actions := fun _ => none
    device_model := model
    device_uuid := dev
    name := nm
    version := "1.0" }

/-- Finalizing the current slot list as a page: the first page takes the
caller-supplied root identifier, later pages take
`uuid_v5(name, manifests.len())`. -/
def finalizePage (root : Uuid) (model : DeviceModel) (dev nm : String)
    (manifests : List (Uuid × ProfileManifest)) (acc : List (Option Action)) :
    List (Uuid × ProfileManifest) :=
  let manifest_uuid := if manifests.isEmpty then root else uuid_v5 nm manifests.length
  manifests ++ [(manifest_uuid, (freshManifest model dev nm).set_actions acc)]

/-- One iteration of the `for image in images` loop of
`ProfilesWithImages::new`: flush a full page, reserve the row-leading
placeholder slot, then append the item's content button. -/
def layoutStep (root : Uuid) (model : DeviceModel) (dev nm pfx : String) (lbl : Bool)
    (st : List (Uuid × ProfileManifest) × List (Option Action)) (img : EmoteImage) :
    List (Uuid × ProfileManifest) × List (Option Action) :=
  let width := model.size.1
  let max_len := width * model.size.2
  let ms := if max_len ≤ st.2.length then finalizePage root model dev nm st.1 st.2 else st.1
  let acc0 : List (Option Action) := if max_len ≤ st.2.length then [] else st.2
  let acc1 := if acc0.length % width = 0 then acc0 ++ [none] else acc0
  (ms, acc1 ++ [some (img.emote.to_action pfx lbl (some img.bytes))])

/-- The content phase of `ProfilesWithImages::new` (lines 99–155): the
item loop followed by the final non-empty flush. -/
def contentManifests (root : Uuid) (model : DeviceModel) (dev nm : String)
    (images : List EmoteImage) (pfx : String) (lbl : Bool) :
    List (Uuid × ProfileManifest) :=
  let st := images.foldl (layoutStep root model dev nm pfx lbl) ([], [])
  if st.2.isEmpty then st.1 else finalizePage root model dev nm st.1 st.2

/-- `HashMap::insert` on the modelled actions map. -/
def insertAction (m : ProfileManifest) (pos : Position) (a : Action) : ProfileManifest :=
  { m with actions := fun p => if p = pos then some a else m.actions p }

/-- The bytes of `../images/back.png`.  The PNG assets are binary files
outside `src/`; no claim depends on their contents, so they are modelled
as fixed stand-in byte lists. -/
def backImageBytes : Bytes := [137, 80, 78, 71, 0]

/-- The bytes of `../images/forward.png` (see `backImageBytes`). -/
def forwardImageBytes : Bytes := [137, 80, 78, 71, 1]

/-- The Back button inserted at `Position::new(0, 0)` on every
non-root page. -/
def backAction : Action :=
  { name := "Open Folder"
    state := 0
    states := [{ State.new_image with title := "Back" }]
    settings := Settings.backToParent
    image := some backImageBytes }

/-- The Forward button inserted at `Position::new(0, height - 1)`,
carrying the identifier of the child page. -/
def forwardAction (child : Uuid) : Action :=
  { name := "Create Folder"
    state := 0
    states := [{ State.new_image with title := "Next" }]
    settings := Settings.openChild child
    image := some forwardImageBytes }

/-- The Back-button pass (lines 157–170): `iter_mut().skip(1)`. -/
def backPass : List (Uuid × ProfileManifest) → List (Uuid × ProfileManifest)
  | [] => []
  | first :: rest =>
      first :: rest.map (fun um => (um.1, insertAction um.2 ⟨0, 0⟩ backAction))

/-- The Forward-button pass (lines 172–194): `iter_mut().rev()` threading
`child_uuid`; returns the rewritten list and the final `child_uuid`. -/
def forwardPass (height : Nat) :
    List (Uuid × ProfileManifest) → Option Uuid →
    List (Uuid × ProfileManifest) × Option Uuid
  | [], child => ([], child)
  | um :: rest, child =>
      let r := forwardPass height rest child
      let um' :=
        match r.2 with
        | some c => (um.1, insertAction um.2 ⟨0, height - 1⟩ (forwardAction c))
        | none => um
      (um' :: r.1, some um.1)

/-- `ProfilesWithImages::new` from `src/profile.rs`, given the resolved
image list (the download stage pairs each emote with its fetched bytes,
preserving order, before any layout happens). -/
def profilesWithImagesNew (root : Uuid) (model : DeviceModel) (dev nm : String)
    (images : List EmoteImage) (pfx : String) (lbl : Bool) :
    List (Uuid × ProfileManifest) :=
  (forwardPass model.size.2 (backPass (contentManifests root model dev nm images pfx lbl)) none).1

/-- Content capacity of one page: each row reserves its leading slot, so
a full page holds `(width - 1) * height` content items. -/
def contentCapacity (model : DeviceModel) : Nat :=
  (model.size.1 - 1) * model.size.2

/-! ## Manifest merge (`merge_manifests_if_exists`, `src/main.rs`)

`serde_json::Value` is modelled by the `Json` inductive (numbers as `Int`;
the merge never inspects numbers).  A `serde_json::Map` is a list of
fields with distinct keys; `Map::insert` of an absent key is modelled as
appending the entry (lookup-equivalent to the B-tree insertion the crate
performs). -/

/-- `serde_json::Value`. -/
inductive Json where
  | null : Json
  | bool (b : Bool) : Json
  | num (n : Int) : Json
  | str (s : String) : Json
  | arr (elems : List Json) : Json
  | obj (fields : List (String × Json)) : Json

/-- `serde_json::Map::get`. -/
def lookupField : List (String × Json) → String → Option Json
  | [], _ => none
  | (k, v) :: rest, key => if k = key then some v else lookupField rest key

/-- `serde_json::Map::contains_key`. -/
def containsField (fields : List (String × Json)) (key : String) : Bool :=
  fields.any (fun kv => kv.1 == key)

/-- Replace the value stored at `key` (used to model writing through
`pointer_mut`); leaves the object unchanged if `key` is absent. -/
def replaceField : List (String × Json) → String → Json → List (String × Json)
  | [], _, _ => []
  | (k, v) :: rest, key, nv =>
      if k = key then (k, nv) :: rest else (k, v) :: replaceField rest key nv

/-- `manifest.pointer("/Actions").and_then(|json| json.as_object())`. -/
def Json.actionsObj : Json → Option (List (String × Json))
  | .obj fields =>
      match lookupField fields "Actions" with
      | some (.obj a) => some a
      | _ => none
  | _ => none

/-- Writing a new actions object back through the mutable pointer. -/
def Json.setActionsObj : Json → List (String × Json) → Json
  | .obj fields, a => .obj (replaceField fields "Actions" (.obj a))
  | j, _ => j

/-- The merge loop of `merge_manifests_if_exists`: every persisted entry
whose key is absent from the (growing) fresh object is inserted. -/
def mergeActionFields (oldA newA : List (String × Json)) : List (String × Json) :=
  oldA.foldl (fun acc kv => if containsField acc kv.1 then acc else acc ++ [kv]) newA

/-- The observable outcomes of `fs::read_to_string(existing_path)`
followed by `serde_json::from_str`: the file is absent, reading fails,
or it yields a string that parses (`ok (some j)`) or does not
(`ok none`). -/
inductive FileRead where
  | notFound : FileRead
  | readError : FileRead
  | ok (parsed : Option Json) : FileRead

/-- `merge_manifests_if_exists` from `src/main.rs`.  The `&mut Value`
argument is modelled by returning the (possibly rewritten) fresh
manifest next to the `Result`; every `return`/`bail!` site returns the
manifest as it stood there. -/
def mergeManifestsIfExists (newManifest : Json) (existing : FileRead) :
    Json × Except String Unit :=
  match existing with
  | .notFound => (newManifest, .ok ())
  | .readError => (newManifest, .error "Could not read existing manifest file")
  | .ok none => (newManifest, .error "Invalid JSON")
  | .ok (some oldManifest) =>
      match oldManifest.actionsObj with
      | none => (newManifest, .error "Existing manifest file has invalid Actions field")
      | some oldActions =>
          match newManifest.actionsObj with
          | none => (newManifest, .error "New manifest file has invalid Actions field")
          | some newActions =>
              (newManifest.setActionsObj (mergeActionFields oldActions newActions), .ok ())

/-- The caller (`main`, lines 140–149): serialize the fresh manifest,
merge unless `--no-merge`, log a warning (without aborting) if the merge
fails, and write the resulting JSON.  This function returns the JSON that
gets written. -/
def manifestJsonToWrite (freshJson : Json) (existing : FileRead) (no_merge : Bool) : Json :=
  if no_merge then freshJson else (mergeManifestsIfExists freshJson existing).1

/-! ## Statement-level predicates for the layout claims -/

/-- An action produced from a content item (`Settings::Text`). -/
def isTextAction (a : Action) : Prop :=
  ∃ se pt, a.settings = Settings.text se pt

/-- Invariant of the in-progress slot list: it never exceeds the grid
capacity, and every occupied slot sits at a non-row-leading index and
holds a content (Text) button. -/
def AccOk (width max_len : Nat) (acc : List (Option Action)) : Prop :=
  acc.length ≤ max_len ∧
  ∀ j a, acc[j]? = some (some a) → ¬ j % width = 0 ∧ isTextAction a

/-- A page as produced by the content phase: every occupied position is
in bounds, off the reserved column 0, and holds a content button. -/
def ContentOnly (width height : Nat) (m : ProfileManifest) : Prop :=
  ∀ p a, m.actions p = some a →
    0 < p.x ∧ p.x < width ∧ p.y < height ∧ isTextAction a

/-- Invariant of the layout loop state. -/
def PhaseInv (model : DeviceModel) (st : List (Uuid × ProfileManifest) × List (Option Action)) :
    Prop :=
  (∀ um ∈ st.1, ContentOnly model.size.1 model.size.2 um.2) ∧
  AccOk model.size.1 (model.size.1 * model.size.2) st.2

/-- Claim C2's property of a produced page sequence: the root page holds
no Back button, every later page holds the Back button at `(0, 0)`, every
non-terminal page holds at `(0, height - 1)` the Forward button carrying
the next page's identifier, and the last page holds no Forward button. -/
def NavChainOk (height : Nat) (ps : List (Uuid × ProfileManifest)) : Prop :=
  (∀ m0, ps[0]? = some m0 → ∀ p a, m0.2.actions p = some a →
      a.settings ≠ Settings.backToParent) ∧
  (∀ i mi, 1 ≤ i → ps[i]? = some mi → mi.2.actions ⟨0, 0⟩ = some backAction) ∧
  (∀ i mi next, ps[i]? = some mi → ps[i + 1]? = some next →
      mi.2.actions ⟨0, height - 1⟩ = some (forwardAction next.1)) ∧
  (∀ mlast, ps[ps.length - 1]? = some mlast → ∀ p a, mlast.2.actions p = some a →
      ∀ u, a.settings ≠ Settings.openChild u)

/-- Claim C3's property: every occupied position of every produced page
is inside the grid. -/
def BoundsOk (width height : Nat) (ps : List (Uuid × ProfileManifest)) : Prop :=
  ∀ (i : Nat) (mi : Uuid × ProfileManifest), ps[i]? = some mi →
    ∀ (p : Position) (a : Action), mi.2.actions p = some a →
      p.x < width ∧ p.y < height

/-- Claim C8's property: column 0 holds the Back button at row 0 exactly
on non-root pages, the Forward button at row `height - 1` exactly on
non-terminal pages, nothing anywhere else, and never a content button. -/
def NavColumnOk (height : Nat) (ps : List (Uuid × ProfileManifest)) : Prop :=
  ∀ i mi, ps[i]? = some mi →
    (mi.2.actions ⟨0, 0⟩ = if 1 ≤ i then some backAction else none) ∧
    (∀ next, ps[i + 1]? = some next →
        mi.2.actions ⟨0, height - 1⟩ = some (forwardAction next.1)) ∧
    (ps[i + 1]? = none → mi.2.actions ⟨0, height - 1⟩ = none) ∧
    (∀ y, y ≠ 0 → y ≠ height - 1 → mi.2.actions ⟨0, y⟩ = none) ∧
    (∀ y a, mi.2.actions ⟨0, y⟩ = some a → ∀ se pt, a.settings ≠ Settings.text se pt)

/-! ## Length abstraction of the layout loop (for the page-count claim) -/

/-- The effect of one `layoutStep` on `(page count, slot-list length)`. -/
def lenStep (width max_len : Nat) (s : Nat × Nat) : Nat × Nat :=
  let s' := if max_len ≤ s.2 then (s.1 + 1, 0) else s
  let a := if s'.2 % width = 0 then s'.2 + 1 else s'.2
  (s'.1, a + 1)

/-- `lenStep` iterated `n` times from `(0, 0)`. -/
def lenIter (width max_len : Nat) : Nat → Nat × Nat
  | 0 => (0, 0)
  | n + 1 => lenStep width max_len (lenIter width max_len n)

/-! # Theorems -/

theorem string_mk_data (s : String) : String.mk s.data = s := rfl

theorem string_ne_empty_of_data (s : String) (c : Char) (rest : List Char)
    (h : s.data = c :: rest) : s ≠ "" := by
  intro he
  rw [he] at h
  exact List.noConfusion h

theorem getD_set_ne (l : List Nat) (i j v : Nat) (h : ¬ i = j) :
    (l.set i v).getD j 0 = l.getD j 0 := by
  induction l generalizing i j with
  | nil => simp
  | cons a rest ih =>
      cases i with
      | zero =>
          cases j with
          | zero => exact absurd rfl h
          | succ j' => simp [List.set]
      | succ i' =>
          cases j with
          | zero => simp [List.set]
          | succ j' =>
              simp only [List.set, List.getD_cons_succ]
              exact ih i' j' (fun he => h (by rw [he]))

theorem getD_set_self (l : List Nat) (i v : Nat) (h : i < l.length) :
    (l.set i v).getD i 0 = v := by
  induction l generalizing i with
  | nil => simp at h
  | cons a rest ih =>
      cases i with
      | zero => simp [List.set]
      | succ i' =>
          simp only [List.set, List.getD_cons_succ]
          exact ih i' (by simpa using h)

set_option maxRecDepth 100000 in
/-- Sanity check of the SHA-1 embedding against the standard test
vector: `SHA1("abc") = a9993e364706816aba3e25717850c26c9cd0d89d`. -/
theorem sha1_test_vector :
    sha1 (utf8Bytes "abc") =
      [169, 153, 62, 54, 71, 6, 129, 106, 186, 62, 37, 113, 120, 80, 194, 108,
       156, 208, 216, 157] := by
  decide

theorem sha1_length (msg : List Nat) : (sha1 msg).length = 20 := by
  simp [sha1, wordToBytes]

theorem sha1_bytes_lt (msg : List Nat) : ∀ b ∈ sha1 msg, b < 256 := by
  intro b hb
  simp only [sha1, wordToBytes, List.mem_append, List.mem_cons,
    List.not_mem_nil, or_false] at hb
  rcases hb with ((h | h | h | h) | (h | h | h | h) | (h | h | h | h) |
    (h | h | h | h) | (h | h | h | h)) <;> omega

theorem uuid_v5_length (nm : String) (page : Nat) : (uuid_v5 nm page).length = 16 := by
  simp [uuid_v5, uuidNewV5, List.length_set, List.length_take, sha1_length]

theorem uuid_v5_bytes_lt (nm : String) (page : Nat) : ∀ b ∈ uuid_v5 nm page, b < 256 := by
  intro b hb
  simp only [uuid_v5, uuidNewV5] at hb
  rcases List.mem_or_eq_of_mem_set hb with hb' | rfl
  · rcases List.mem_or_eq_of_mem_set hb' with hb'' | rfl
    · exact sha1_bytes_lt _ b (List.mem_of_mem_take hb'')
    · omega
  · omega

theorem uuid_v5_version (nm : String) (page : Nat) : (uuid_v5 nm page).getD 6 0 / 16 = 5 := by
  have h20 := sha1_length (namespaceURL ++ utf8Bytes
    ("https://github.com/walfie/streamdeck-youtube-emotes#" ++ nm ++ "_page" ++ Nat.repr page))
  simp only [uuid_v5, uuidNewV5]
  rw [getD_set_ne _ 8 6 _ (by omega)]
  rw [getD_set_self]
  · omega
  · simp [List.length_take, h20]

theorem uuid_v5_variant (nm : String) (page : Nat) : (uuid_v5 nm page).getD 8 0 / 64 = 2 := by
  have h20 := sha1_length (namespaceURL ++ utf8Bytes
    ("https://github.com/walfie/streamdeck-youtube-emotes#" ++ nm ++ "_page" ++ Nat.repr page))
  simp only [uuid_v5, uuidNewV5]
  rw [getD_set_self]
  · omega
  · simp [List.length_set, List.length_take, h20]

/-- C7: the identifier deriver is a pure deterministic function of
`(name, page)`: equal arguments yield the identical identifier; the
result is a 128-bit value (16 bytes, each below 256); and it is exactly
the name-based UUIDv5 over the fixed URL namespace and the composed
string whose variable part is `"{name}_page{page}"`, carrying the v5
version nibble and the RFC 4122 variant bits. -/
theorem uuid_v5_pure_deterministic_v5_structure (nm : String) (page : Nat) :
    uuid_v5 nm page = uuid_v5 nm page ∧
    uuid_v5 nm page = uuidNewV5 namespaceURL
      (utf8Bytes ("https://github.com/walfie/streamdeck-youtube-emotes#" ++ nm ++
        "_page" ++ Nat.repr page)) ∧
    (uuid_v5 nm page).length = 16 ∧
    (∀ b ∈ uuid_v5 nm page, b < 256) ∧
    (uuid_v5 nm page).getD 6 0 / 16 = 5 ∧
    (uuid_v5 nm page).getD 8 0 / 64 = 2 :=
  ⟨rfl, rfl, uuid_v5_length nm page, uuid_v5_bytes_lt nm page,
    uuid_v5_version nm page, uuid_v5_variant nm page⟩

/-- Witness for C7 at the concrete input `("Emotes", 1)`. -/
theorem uuid_v5_pure_deterministic_v5_structure_witness :
    uuid_v5 "Emotes" 1 = uuid_v5 "Emotes" 1 ∧
    uuid_v5 "Emotes" 1 = uuidNewV5 namespaceURL
      (utf8Bytes ("https://github.com/walfie/streamdeck-youtube-emotes#" ++ "Emotes" ++
        "_page" ++ Nat.repr 1)) ∧
    (uuid_v5 "Emotes" 1).length = 16 ∧
    (∀ b ∈ uuid_v5 "Emotes" 1, b < 256) ∧
    (uuid_v5 "Emotes" 1).getD 6 0 / 16 = 5 ∧
    (uuid_v5 "Emotes" 1).getD 8 0 / 64 = 2 :=
  uuid_v5_pure_deterministic_v5_structure "Emotes" 1

/-- C6: the pasted-text payload is `":_" ++ prefix ++ Label ++ ":"`, where
`Label` is the label with its first character ASCII-uppercased when both
the prefix string and the label are non-empty, and the label verbatim
otherwise; in particular `("small9cm", "pomu")` yields
`":_pomuSmall9cm:"` and `("hic1", "")` yields `":_hic1:"`. -/
theorem to_action_payload (e : Emote) (pfx : String) (lbl : Bool) (img : Option Bytes) :
    (e.to_action pfx lbl img).settings =
      Settings.text false (":_" ++ pfx ++ payloadLabelSpec pfx e.name ++ ":") ∧
    (Emote.to_action ⟨"small9cm", "u"⟩ "pomu" true none).settings =
      Settings.text false ":_pomuSmall9cm:" ∧
    (Emote.to_action ⟨"hic1", "u"⟩ "" false none).settings =
      Settings.text false ":_hic1:" := by
  refine ⟨?_, by decide, by decide⟩
  simp only [Emote.to_action, payloadLabelSpec]
  by_cases h : pfx ≠ "" ∧ e.name ≠ ""
  · simp only [if_pos h]
    cases hd : e.name.data with
    | nil => rfl
    | cons c rest =>
        by_cases hc : c.toNat < 128
        · simp only [if_pos hc]
        · simp only [if_neg hc]
          have hup : asciiUppercaseChar c = c := by
            simp only [asciiUppercaseChar]
            rw [if_neg]
            omega
          rw [hup, ← hd, string_mk_data]
  · simp only [if_neg h]

/-- Witness for C6 at the concrete input
`(label "small9cm", prefix "pomu")`. -/
theorem to_action_payload_witness :
    (Emote.to_action ⟨"small9cm", "u"⟩ "pomu" true none).settings =
      Settings.text false
        (":_" ++ "pomu" ++ payloadLabelSpec "pomu" (Emote.mk "small9cm" "u").name ++ ":") ∧
    (Emote.to_action ⟨"small9cm", "u"⟩ "pomu" true none).settings =
      Settings.text false ":_pomuSmall9cm:" ∧
    (Emote.to_action ⟨"hic1", "u"⟩ "" false none).settings =
      Settings.text false ":_hic1:" :=
  to_action_payload ⟨"small9cm", "u"⟩ "pomu" true none

/-- C10: `to_action` is total, and when the prefix is non-empty but the
label's first character is not a single UTF-8 byte (code point at least
128), the byte-range uppercase step does nothing: the payload uses the
label fully verbatim, with no error and no Unicode-aware uppercasing. -/
theorem to_action_non_ascii_first_char_verbatim (e : Emote) (pfx : String) (lbl : Bool)
    (img : Option Bytes) (c : Char) (rest : List Char)
    (hp : pfx ≠ "") (hd : e.name.data = c :: rest) (hc : 128 ≤ c.toNat) :
    (e.to_action pfx lbl img).settings =
      Settings.text false (":_" ++ pfx ++ e.name ++ ":") := by
  have hne : e.name ≠ "" := string_ne_empty_of_data e.name c rest hd
  have hcond : pfx ≠ "" ∧ e.name ≠ "" := And.intro hp hne
  simp only [Emote.to_action]
  simp only [if_pos hcond, hd]
  simp [show ¬ c.toNat < 128 from by omega]

/-- Witness for C10 at the concrete label `"éa"` (first character
`é`, code point 233, a two-byte UTF-8 character). -/
theorem to_action_non_ascii_first_char_verbatim_witness :
    (Emote.to_action ⟨"éa", "u"⟩ "pomu" true none).settings =
      Settings.text false (":_" ++ "pomu" ++ (Emote.mk "éa" "u").name ++ ":") :=
  to_action_non_ascii_first_char_verbatim ⟨"éa", "u"⟩ "pomu" true none
    'é' ['a'] (by decide) (by decide) (by decide)

/-! ## Merge lemmas -/

theorem lookupField_append (l1 l2 : List (String × Json)) (k : String) :
    lookupField (l1 ++ l2) k =
      match lookupField l1 k with
      | some v => some v
      | none => lookupField l2 k := by
  induction l1 with
  | nil => simp [lookupField]
  | cons kv rest ih =>
      obtain ⟨k0, v0⟩ := kv
      by_cases h : k0 = k
      · simp [lookupField, h]
      · simp only [List.cons_append, lookupField, if_neg h]
        exact ih

theorem containsField_eq_isSome (l : List (String × Json)) (k : String) :
    containsField l k = (lookupField l k).isSome := by
  induction l with
  | nil => simp [containsField, lookupField]
  | cons kv rest ih =>
      obtain ⟨k0, v0⟩ := kv
      by_cases h : k0 = k
      · simp [containsField, lookupField, h]
      · simp only [containsField, lookupField, List.any_cons] at ih ⊢
        rw [if_neg h]
        simp only [show (k0 == k) = false by simp [h], Bool.false_or]
        exact ih

theorem containsField_of_mem (l : List (String × Json)) (kv : String × Json)
    (h : kv ∈ l) : containsField l kv.1 = true := by
  simp only [containsField, List.any_eq_true]
  exact ⟨kv, h, by simp⟩

theorem lookupField_mergeActionFields (oldA : List (String × Json)) :
    ∀ (newA : List (String × Json)) (k : String),
      lookupField (mergeActionFields oldA newA) k =
        match lookupField newA k with
        | some v => some v
        | none => lookupField oldA k := by
  induction oldA with
  | nil =>
      intro newA k
      simp only [mergeActionFields, List.foldl_nil, lookupField]
      cases lookupField newA k <;> rfl
  | cons kv rest ih =>
      intro newA k
      obtain ⟨k0, v0⟩ := kv
      by_cases hc : containsField newA k0
      · have hstep : mergeActionFields ((k0, v0) :: rest) newA = mergeActionFields rest newA := by
          simp [mergeActionFields, hc]
        rw [hstep, ih]
        by_cases hk : k0 = k
        · subst hk
          have : (lookupField newA k0).isSome := by rw [← containsField_eq_isSome]; exact hc
          cases hl : lookupField newA k0
          · rw [hl] at this; simp at this
          · rfl
        · simp only [lookupField, if_neg hk]
      · have hstep : mergeActionFields ((k0, v0) :: rest) newA =
            mergeActionFields rest (newA ++ [(k0, v0)]) := by
          simp [mergeActionFields, hc]
        rw [hstep, ih, lookupField_append]
        by_cases hk : k0 = k
        · subst hk
          have : ¬ (lookupField newA k0).isSome = true := by
            rw [← containsField_eq_isSome]; simp [hc]
          cases hl : lookupField newA k0
          · simp [lookupField]
          · rw [hl] at this
        · cases hl : lookupField newA k
          · simp [lookupField, if_neg hk]
          · rfl

theorem containsField_mergeActionFields (oldA newA : List (String × Json)) (k : String) :
    containsField (mergeActionFields oldA newA) k =
      (containsField newA k || containsField oldA k) := by
  rw [containsField_eq_isSome, containsField_eq_isSome, containsField_eq_isSome,
    lookupField_mergeActionFields]
  cases lookupField newA k <;> cases lookupField oldA k <;> rfl

theorem mergeActionFields_noop (oldA : List (String × Json)) :
    ∀ acc : List (String × Json), (∀ kv ∈ oldA, containsField acc kv.1 = true) →
      mergeActionFields oldA acc = acc := by
  induction oldA with
  | nil => intro acc _; rfl
  | cons kv rest ih =>
      intro acc h
      have hc : containsField acc kv.1 = true := h kv (List.mem_cons_self kv rest)
      have hstep : mergeActionFields (kv :: rest) acc = mergeActionFields rest acc := by
        simp [mergeActionFields, hc]
      rw [hstep]
      exact ih acc (fun kv2 hm => h kv2 (List.mem_cons_of_mem kv hm))

theorem lookupField_replaceField_self (l : List (String × Json)) (key : String) (nv : Json) :
    (lookupField l key).isSome → lookupField (replaceField l key nv) key = some nv := by
  induction l with
  | nil => intro h; simp [lookupField] at h
  | cons kv rest ih =>
      intro h
      obtain ⟨k0, v0⟩ := kv
      by_cases hk : k0 = key
      · simp [replaceField, lookupField, hk]
      · simp only [replaceField, if_neg hk, lookupField]
        exact ih (by simpa [lookupField, if_neg hk] using h)

theorem replaceField_replaceField (l : List (String × Json)) (key : String) (a b : Json) :
    replaceField (replaceField l key a) key b = replaceField l key b := by
  induction l with
  | nil => rfl
  | cons kv rest ih =>
      obtain ⟨k0, v0⟩ := kv
      by_cases hk : k0 = key
      · simp [replaceField, hk]
      · simp [replaceField, hk, ih]

theorem actionsObj_setActionsObj (j : Json) (a b : List (String × Json))
    (h : j.actionsObj = some a) : (j.setActionsObj b).actionsObj = some b := by
  cases j with
  | obj fields =>
      simp only [Json.setActionsObj, Json.actionsObj]
      have hsome : (lookupField fields "Actions").isSome := by
        simp only [Json.actionsObj] at h
        cases hl : lookupField fields "Actions" with
        | none => rw [hl] at h; simp at h
        | some v => simp
      rw [lookupField_replaceField_self fields "Actions" (Json.obj b) hsome]
  | null => simp [Json.actionsObj] at h
  | bool b0 => simp [Json.actionsObj] at h
  | num n0 => simp [Json.actionsObj] at h
  | str s0 => simp [Json.actionsObj] at h
  | arr e0 => simp [Json.actionsObj] at h

theorem setActionsObj_setActionsObj (j : Json) (a b : List (String × Json)) :
    (j.setActionsObj a).setActionsObj b = j.setActionsObj b := by
  cases j with
  | obj fields => simp [Json.setActionsObj, replaceField_replaceField]
  | null => rfl
  | bool b0 => rfl
  | num n0 => rfl
  | str s0 => rfl
  | arr e0 => rfl

theorem mergeMIE_success (f old : Json) (oldA newA : List (String × Json))
    (hold : old.actionsObj = some oldA) (hnew : f.actionsObj = some newA) :
    mergeManifestsIfExists f (FileRead.ok (some old)) =
      (f.setActionsObj (mergeActionFields oldA newA), Except.ok ()) := by
  simp [mergeManifestsIfExists, hold, hnew]

theorem mergeMIE_error_fst (f : Json) (ex : FileRead) (e : String)
    (h : (mergeManifestsIfExists f ex).2 = Except.error e) :
    (mergeManifestsIfExists f ex).1 = f := by
  cases ex with
  | notFound => rfl
  | readError => rfl
  | ok p =>
      cases p with
      | none => rfl
      | some old =>
          cases hold : old.actionsObj with
          | none => simp [mergeManifestsIfExists, hold]
          | some oldA =>
              cases hnew : f.actionsObj with
              | none => simp [mergeManifestsIfExists, hold, hnew]
              | some newA =>
                  rw [mergeMIE_success f old oldA newA hold hnew] at h
                  exact absurd h (by simp)

/-- C4: merging against a missing persisted file returns the fresh
manifest unchanged; otherwise the resulting Actions object is the fresh
one extended with exactly those persisted entries whose keys are absent
from the fresh object — a key present in the fresh object always keeps
the fresh entry. -/
theorem merge_fresh_wins (f old : Json) (oldA newA : List (String × Json))
    (hold : old.actionsObj = some oldA) (hnew : f.actionsObj = some newA) :
    (∀ g : Json, mergeManifestsIfExists g FileRead.notFound = (g, Except.ok ())) ∧
    (mergeManifestsIfExists f (FileRead.ok (some old))).2 = Except.ok () ∧
    ∃ merged, (mergeManifestsIfExists f (FileRead.ok (some old))).1.actionsObj = some merged ∧
      ∀ k, lookupField merged k =
        match lookupField newA k with
        | some v => some v
        | none => lookupField oldA k := by
  refine ⟨fun g => rfl, ?_, ?_⟩
  · rw [mergeMIE_success f old oldA newA hold hnew]
  · refine ⟨mergeActionFields oldA newA, ?_, ?_⟩
    · rw [mergeMIE_success f old oldA newA hold hnew]
      exact actionsObj_setActionsObj f newA _ hnew
    · exact fun k => lookupField_mergeActionFields oldA newA k

/-- Witness for C4: a persisted object with one conflicting key
(`"0,0"`, fresh wins) and one extra key (`"1,0"`, copied over). -/
theorem merge_fresh_wins_witness :
    (∀ g : Json, mergeManifestsIfExists g FileRead.notFound = (g, Except.ok ())) ∧
    (mergeManifestsIfExists
        (Json.obj [("Actions", Json.obj [("0,0", Json.str "fresh")]), ("Name", Json.str "E")])
        (FileRead.ok (some (Json.obj
          [("Actions", Json.obj [("0,0", Json.str "old"), ("1,0", Json.str "keep")])])))).2 =
      Except.ok () ∧
    ∃ merged, (mergeManifestsIfExists
        (Json.obj [("Actions", Json.obj [("0,0", Json.str "fresh")]), ("Name", Json.str "E")])
        (FileRead.ok (some (Json.obj
          [("Actions", Json.obj [("0,0", Json.str "old"), ("1,0", Json.str "keep")])])))).1.actionsObj =
        some merged ∧
      ∀ k, lookupField merged k =
        match lookupField [("0,0", Json.str "fresh")] k with
        | some v => some v
        | none => lookupField [("0,0", Json.str "old"), ("1,0", Json.str "keep")] k :=
  merge_fresh_wins
    (Json.obj [("Actions", Json.obj [("0,0", Json.str "fresh")]), ("Name", Json.str "E")])
    (Json.obj [("Actions", Json.obj [("0,0", Json.str "old"), ("1,0", Json.str "keep")])])
    [("0,0", Json.str "old"), ("1,0", Json.str "keep")]
    [("0,0", Json.str "fresh")]
    rfl rfl

/-- C5: when the persisted file does not parse, or its Actions field is
missing or not an object, the merge returns an error with the fresh
manifest completely unchanged (no partial mutation), and the caller's
write step still writes the fresh manifest alone instead of aborting. -/
theorem merge_malformed_persisted_degrades (f : Json) (ex : FileRead) (e : String)
    (h : (mergeManifestsIfExists f ex).2 = Except.error e) :
    (mergeManifestsIfExists f ex).1 = f ∧
    manifestJsonToWrite f ex false = f ∧
    (∀ g : Json, (mergeManifestsIfExists g (FileRead.ok none)).2 =
      Except.error "Invalid JSON") ∧
    (∀ (g old2 : Json), old2.actionsObj = none →
      (mergeManifestsIfExists g (FileRead.ok (some old2))).2 =
        Except.error "Existing manifest file has invalid Actions field") := by
  refine ⟨mergeMIE_error_fst f ex e h, ?_, fun g => rfl, ?_⟩
  · simp only [manifestJsonToWrite, if_neg (by simp : ¬ (false : Bool) = true)]
    exact mergeMIE_error_fst f ex e h
  · intro g old2 hold2
    simp [mergeManifestsIfExists, hold2]

/-- Witness for C5: a persisted file whose Actions field is a string. -/
theorem merge_malformed_persisted_degrades_witness :
    (mergeManifestsIfExists
        (Json.obj [("Actions", Json.obj [("0,0", Json.str "fresh")])])
        (FileRead.ok (some (Json.obj [("Actions", Json.str "bad")])))).1 =
      Json.obj [("Actions", Json.obj [("0,0", Json.str "fresh")])] ∧
    manifestJsonToWrite (Json.obj [("Actions", Json.obj [("0,0", Json.str "fresh")])])
      (FileRead.ok (some (Json.obj [("Actions", Json.str "bad")]))) false =
      Json.obj [("Actions", Json.obj [("0,0", Json.str "fresh")])] ∧
    (∀ g : Json, (mergeManifestsIfExists g (FileRead.ok none)).2 =
      Except.error "Invalid JSON") ∧
    (∀ (g old2 : Json), old2.actionsObj = none →
      (mergeManifestsIfExists g (FileRead.ok (some old2))).2 =
        Except.error "Existing manifest file has invalid Actions field") :=
  merge_malformed_persisted_degrades
    (Json.obj [("Actions", Json.obj [("0,0", Json.str "fresh")])])
    (FileRead.ok (some (Json.obj [("Actions", Json.str "bad")])))
    "Existing manifest file has invalid Actions field" rfl

/-- C9: merging with no persisted file is the identity; re-merging an
already-merged manifest against the same persisted file changes nothing;
and when the persisted object has keys absent from the fresh object the
merged key set strictly extends the fresh key set. -/
theorem merge_idempotent (f old : Json) (oldA newA : List (String × Json)) (k : String)
    (hold : old.actionsObj = some oldA) (hnew : f.actionsObj = some newA)
    (hin : containsField oldA k = true) (hout : containsField newA k = false) :
    (∀ g : Json, mergeManifestsIfExists g FileRead.notFound = (g, Except.ok ())) ∧
    (∀ (g : Json) (ex : FileRead),
      (mergeManifestsIfExists (mergeManifestsIfExists g ex).1 ex).1 =
        (mergeManifestsIfExists g ex).1) ∧
    (∃ merged,
      (mergeManifestsIfExists f (FileRead.ok (some old))).1.actionsObj = some merged ∧
      (∀ k2, containsField newA k2 = true → containsField merged k2 = true) ∧
      containsField merged k = true) := by
  refine ⟨fun g => rfl, ?_, ?_⟩
  · intro g ex
    cases hm : (mergeManifestsIfExists g ex).2 with
    | error e =>
        have h1 := mergeMIE_error_fst g ex e hm
        rw [h1]
        exact h1
    | ok u =>
        cases ex with
        | notFound => rfl
        | readError => simp [mergeManifestsIfExists] at hm
        | ok p =>
            cases p with
            | none => simp [mergeManifestsIfExists] at hm
            | some old2 =>
                cases hold2 : old2.actionsObj with
                | none => simp [mergeManifestsIfExists, hold2] at hm
                | some oldA2 =>
                    cases hnew2 : g.actionsObj with
                    | none => simp [mergeManifestsIfExists, hold2, hnew2] at hm
                    | some newA2 =>
                        rw [mergeMIE_success g old2 oldA2 newA2 hold2 hnew2]
                        have hset : (g.setActionsObj (mergeActionFields oldA2 newA2)).actionsObj =
                            some (mergeActionFields oldA2 newA2) :=
                          actionsObj_setActionsObj g newA2 _ hnew2
                        rw [mergeMIE_success (g.setActionsObj (mergeActionFields oldA2 newA2))
                          old2 oldA2 (mergeActionFields oldA2 newA2) hold2 hset]
                        rw [mergeActionFields_noop oldA2 (mergeActionFields oldA2 newA2)
                          (fun kv hm2 => by
                            rw [containsField_mergeActionFields]
                            rw [containsField_of_mem oldA2 kv hm2]
                            simp)]
                        rw [setActionsObj_setActionsObj]
  · refine ⟨mergeActionFields oldA newA, ?_, ?_, ?_⟩
    · rw [mergeMIE_success f old oldA newA hold hnew]
      exact actionsObj_setActionsObj f newA _ hnew
    · intro k2 hk2
      rw [containsField_mergeActionFields, hk2]
      rfl
    · rw [containsField_mergeActionFields, hin, hout]
      rfl

/-- Witness for C9 with a persisted key `"1,0"` absent from fresh. -/
theorem merge_idempotent_witness :
    (∀ g : Json, mergeManifestsIfExists g FileRead.notFound = (g, Except.ok ())) ∧
    (∀ (g : Json) (ex : FileRead),
      (mergeManifestsIfExists (mergeManifestsIfExists g ex).1 ex).1 =
        (mergeManifestsIfExists g ex).1) ∧
    (∃ merged,
      (mergeManifestsIfExists
        (Json.obj [("Actions", Json.obj [("0,0", Json.str "fresh")])])
        (FileRead.ok (some (Json.obj
          [("Actions", Json.obj [("1,0", Json.str "keep")])])))).1.actionsObj = some merged ∧
      (∀ k2, containsField [("0,0", Json.str "fresh")] k2 = true →
        containsField merged k2 = true) ∧
      containsField merged "1,0" = true) :=
  merge_idempotent
    (Json.obj [("Actions", Json.obj [("0,0", Json.str "fresh")])])
    (Json.obj [("Actions", Json.obj [("1,0", Json.str "keep")])])
    [("1,0", Json.str "keep")] [("0,0", Json.str "fresh")] "1,0"
    rfl rfl (by decide) (by decide)

/-! ## Page-count lemmas -/

theorem lenStep_fst (w ml : Nat) (p : Nat × Nat) :
    (lenStep w ml p).1 = if ml ≤ p.2 then p.1 + 1 else p.1 := by
  by_cases h : ml ≤ p.2 <;> simp [lenStep, h]

theorem lenStep_snd (w ml : Nat) (p : Nat × Nat) :
    (lenStep w ml p).2 =
      if ml ≤ p.2 then 2 else (if p.2 % w = 0 then p.2 + 2 else p.2 + 1) := by
  by_cases h : ml ≤ p.2
  · simp [lenStep, h]
  · by_cases h2 : p.2 % w = 0 <;> simp [lenStep, h, h2]

theorem lenIter_std (n : Nat) (h : 0 < n) :
    (lenIter 5 15 n).1 = (n - 1) / 12 ∧
    (lenIter 5 15 n).2 = ((n - 1) % 12 + 1) + (((n - 1) % 12 + 1) + 3) / 4 := by
  induction n with
  | zero => omega
  | succ m ih =>
      rcases Nat.eq_zero_or_pos m with rfl | hm
      · refine ⟨rfl, ?_⟩
        decide
      · obtain ⟨ih1, ih2⟩ := ih hm
        simp only [lenIter, lenStep_fst, lenStep_snd, ih1, ih2]
        constructor
        · split_ifs <;> omega
        · split_ifs <;> omega

theorem lenIter_xl (n : Nat) (h : 0 < n) :
    (lenIter 4 32 n).1 = (n - 1) / 24 ∧
    (lenIter 4 32 n).2 = ((n - 1) % 24 + 1) + (((n - 1) % 24 + 1) + 2) / 3 := by
  induction n with
  | zero => omega
  | succ m ih =>
      rcases Nat.eq_zero_or_pos m with rfl | hm
      · refine ⟨rfl, ?_⟩
        decide
      · obtain ⟨ih1, ih2⟩ := ih hm
        simp only [lenIter, lenStep_fst, lenStep_snd, ih1, ih2]
        constructor
        · split_ifs <;> omega
        · split_ifs <;> omega

theorem lenIter_mini (n : Nat) (h : 0 < n) :
    (lenIter 3 6 n).1 = (n - 1) / 4 ∧
    (lenIter 3 6 n).2 = ((n - 1) % 4 + 1) + (((n - 1) % 4 + 1) + 1) / 2 := by
  induction n with
  | zero => omega
  | succ m ih =>
      rcases Nat.eq_zero_or_pos m with rfl | hm
      · refine ⟨rfl, ?_⟩
        decide
      · obtain ⟨ih1, ih2⟩ := ih hm
        simp only [lenIter, lenStep_fst, lenStep_snd, ih1, ih2]
        constructor
        · split_ifs <;> omega
        · split_ifs <;> omega

theorem lenIter_closed (model : DeviceModel) (n : Nat) (h : 0 < n) :
    (lenIter model.size.1 (model.size.1 * model.size.2) n).1 =
      (n - 1) / contentCapacity model ∧
    0 < (lenIter model.size.1 (model.size.1 * model.size.2) n).2 := by
  cases model with
  | standard =>
      obtain ⟨h1, h2⟩ := lenIter_std n h
      refine ⟨h1, ?_⟩
      show 0 < (lenIter 5 15 n).2
      omega
  | xl =>
      obtain ⟨h1, h2⟩ := lenIter_xl n h
      refine ⟨h1, ?_⟩
      show 0 < (lenIter 4 32 n).2
      omega
  | mini =>
      obtain ⟨h1, h2⟩ := lenIter_mini n h
      refine ⟨h1, ?_⟩
      show 0 < (lenIter 3 6 n).2
      omega

theorem contentCapacity_pos (model : DeviceModel) : 0 < contentCapacity model := by
  cases model <;> decide

theorem layoutStep_lengths (root : Uuid) (model : DeviceModel) (dev nm pfx : String) (lbl : Bool)
    (st : List (Uuid × ProfileManifest) × List (Option Action)) (img : EmoteImage) :
    (((layoutStep root model dev nm pfx lbl st img).1).length,
     ((layoutStep root model dev nm pfx lbl st img).2).length) =
      lenStep model.size.1 (model.size.1 * model.size.2) (st.1.length, st.2.length) := by
  simp only [layoutStep, lenStep, finalizePage]
  by_cases h : model.size.1 * model.size.2 ≤ st.2.length
  · simp [h]
  · simp only [if_neg h]
    by_cases h2 : st.2.length % model.size.1 = 0 <;> simp [h2]

theorem foldl_layoutStep_lengths (root : Uuid) (model : DeviceModel) (dev nm pfx : String)
    (lbl : Bool) :
    ∀ (images : List EmoteImage) (st : List (Uuid × ProfileManifest) × List (Option Action)),
      (((images.foldl (layoutStep root model dev nm pfx lbl) st).1).length,
       ((images.foldl (layoutStep root model dev nm pfx lbl) st).2).length) =
        images.foldl (fun s _ => lenStep model.size.1 (model.size.1 * model.size.2) s)
          (st.1.length, st.2.length) := by
  intro images
  induction images with
  | nil => intro st; rfl
  | cons img rest ih =>
      intro st
      simp only [List.foldl_cons]
      rw [ih (layoutStep root model dev nm pfx lbl st img), layoutStep_lengths]

theorem foldl_lenStep_eq (w ml : Nat) :
    ∀ (images : List EmoteImage) (s : Nat × Nat),
      images.foldl (fun s _ => lenStep w ml s) s = (lenStep w ml)^[images.length] s := by
  intro images
  induction images with
  | nil => intro s; rfl
  | cons img rest ih =>
      intro s
      simp only [List.foldl_cons, List.length_cons]
      rw [ih, Function.iterate_succ_apply]

theorem lenIter_eq_iterate (w ml : Nat) : ∀ n, lenIter w ml n = (lenStep w ml)^[n] (0, 0) := by
  intro n
  induction n with
  | zero => rfl
  | succ m ih =>
      simp only [lenIter]
      rw [ih, Function.iterate_succ_apply']

theorem contentManifests_length (root : Uuid) (model : DeviceModel) (dev nm : String)
    (images : List EmoteImage) (pfx : String) (lbl : Bool) :
    (contentManifests root model dev nm images pfx lbl).length =
      (images.length + contentCapacity model - 1) / contentCapacity model := by
  have hpair := foldl_layoutStep_lengths root model dev nm pfx lbl images ([], [])
  rw [show ((([] : List (Uuid × ProfileManifest)), ([] : List (Option Action))).1.length,
      ((([] : List (Uuid × ProfileManifest)), ([] : List (Option Action))).2.length)) = ((0 : Nat), (0 : Nat))
    from rfl] at hpair
  rw [foldl_lenStep_eq, ← lenIter_eq_iterate] at hpair
  have h1 : ((images.foldl (layoutStep root model dev nm pfx lbl) ([], [])).1).length =
      (lenIter model.size.1 (model.size.1 * model.size.2) images.length).1 :=
    congrArg Prod.fst hpair
  have h2 : ((images.foldl (layoutStep root model dev nm pfx lbl) ([], [])).2).length =
      (lenIter model.size.1 (model.size.1 * model.size.2) images.length).2 :=
    congrArg Prod.snd hpair
  have hcap := contentCapacity_pos model
  simp only [contentManifests]
  rcases Nat.eq_zero_or_pos images.length with hn | hn
  · have hz : lenIter model.size.1 (model.size.1 * model.size.2) images.length = (0, 0) := by
      rw [hn]; rfl
    have he : ((images.foldl (layoutStep root model dev nm pfx lbl) ([], [])).2).length = 0 := by
      rw [h2, hz]
    have he' : ((images.foldl (layoutStep root model dev nm pfx lbl) ([], [])).2).isEmpty = true := by
      rw [List.isEmpty_iff_length_eq_zero]
      exact he
    rw [if_pos he', h1, hz, hn]
    exact (Nat.div_eq_of_lt (by omega)).symm
  · obtain ⟨hfst, hsnd⟩ := lenIter_closed model images.length hn
    have he : ¬ ((images.foldl (layoutStep root model dev nm pfx lbl) ([], [])).2).isEmpty = true := by
      rw [List.isEmpty_iff_length_eq_zero, h2]
      omega
    rw [if_neg he]
    simp only [finalizePage, List.length_append, List.length_cons, List.length_nil]
    rw [h1, hfst]
    have hre : images.length + contentCapacity model - 1 =
        images.length - 1 + contentCapacity model := by omega
    rw [hre, Nat.add_div_right _ hcap]

theorem backPass_length (l : List (Uuid × ProfileManifest)) :
    (backPass l).length = l.length := by
  cases l <;> simp [backPass]

theorem forwardPass_length (h : Nat) :
    ∀ (l : List (Uuid × ProfileManifest)) (c : Option Uuid),
      ((forwardPass h l c).1).length = l.length := by
  intro l
  induction l with
  | nil => intro c; rfl
  | cons um rest ih =>
      intro c
      simp only [forwardPass]
      cases (forwardPass h rest c).2 <;> simp [ih c]

/-- C1: for every device model (grid `(5,3)`, `(4,8)` or `(3,2)`) and
every item list, the layout produces exactly
`ceil(n / ((width - 1) * height))` pages — each page reserves one
placeholder cell per row, so a full page holds `(width - 1) * height`
content items; in particular `n = 0` produces zero pages and 20 items on
the Standard grid produce exactly 2 pages. -/
theorem layout_page_count (model : DeviceModel) (root : Uuid) (dev nm : String)
    (images : List EmoteImage) (pfx : String) (lbl : Bool) :
    (profilesWithImagesNew root model dev nm images pfx lbl).length =
      (images.length + contentCapacity model - 1) / contentCapacity model := by
  simp only [profilesWithImagesNew]
  rw [forwardPass_length, backPass_length, contentManifests_length]

/-- Witness for C1: 20 items on the Standard grid give exactly 2 pages,
and 0 items give 0 pages. -/
theorem layout_page_count_witness :
    (profilesWithImagesNew [0] DeviceModel.standard "" "Emotes"
      (List.replicate 20 ⟨⟨"a", "u"⟩, []⟩) "" false).length = 2 ∧
    (profilesWithImagesNew [0] DeviceModel.standard "" "Emotes" [] "" false).length = 0 := by
  constructor
  · rw [layout_page_count]
    decide
  · rw [layout_page_count]
    decide

/-! ## Content-phase invariants -/

theorem size_facts (model : DeviceModel) :
    2 ≤ model.size.1 ∧ 2 ≤ model.size.2 ∧ model.size.1 * model.size.2 ≤ 256 := by
  cases model <;> decide

theorem to_action_isText (e : Emote) (pfx : String) (lbl : Bool) (img : Option Bytes) :
    isTextAction (e.to_action pfx lbl img) :=
  ⟨false, _, rfl⟩

theorem writeActions_cases (w : Nat) :
    ∀ (l : List (Option Action)) (idx : Nat) (f : Position → Option Action) (p : Position),
      writeActions w idx l f p = f p ∨
      ∃ j, j < l.length ∧ p = posOfIndex w (idx + j) ∧
        l[j]? = some (writeActions w idx l f p) := by
  intro l
  induction l with
  | nil => intro idx f p; exact Or.inl rfl
  | cons a rest ih =>
      intro idx f p
      rcases ih (idx + 1) (fun q => if q = posOfIndex w idx then a else f q) p with
        hl | ⟨j, hj, hpj, hlj⟩
      · by_cases hp : p = posOfIndex w idx
        · refine Or.inr ⟨0, by simp, by simpa using hp, ?_⟩
          rw [List.getElem?_cons_zero]
          rw [show writeActions w idx (a :: rest) f p =
            writeActions w (idx + 1) rest (fun q => if q = posOfIndex w idx then a else f q) p
            from rfl, hl, if_pos hp]
        · refine Or.inl ?_
          rw [show writeActions w idx (a :: rest) f p =
            writeActions w (idx + 1) rest (fun q => if q = posOfIndex w idx then a else f q) p
            from rfl, hl, if_neg hp]
      · refine Or.inr ⟨j + 1, by simpa using hj, ?_, ?_⟩
        · rw [hpj]
          congr 1
          omega
        · rw [List.getElem?_cons_succ]
          exact hlj

theorem set_actions_contentOnly (model : DeviceModel) (dev nm : String)
    (acc : List (Option Action))
    (hacc : AccOk model.size.1 (model.size.1 * model.size.2) acc) :
    ContentOnly model.size.1 model.size.2 ((freshManifest model dev nm).set_actions acc) := by
  obtain ⟨hsf1, hsf2, hsf3⟩ := size_facts model
  obtain ⟨hlen, hent⟩ := hacc
  intro p a hpa
  have hpa' : writeActions model.size.1 0 acc (fun _ => none) p = some a := hpa
  rcases writeActions_cases model.size.1 acc 0 (fun _ => none) p with hl | ⟨j, hj, hpj, hlj⟩
  · rw [hl] at hpa'
    exact absurd hpa' (by simp)
  · rw [hpa'] at hlj
    obtain ⟨hjmod, htext⟩ := hent j a hlj
    have hj256 : j % 256 = j := Nat.mod_eq_of_lt (by omega)
    have hpx : p.x = j % model.size.1 := by
      rw [hpj]
      simp [posOfIndex, hj256]
    have hpy : p.y = j / model.size.1 := by
      rw [hpj]
      simp [posOfIndex, hj256]
    refine ⟨?_, ?_, ?_, htext⟩
    · rw [hpx]; omega
    · rw [hpx]; exact Nat.mod_lt j (by omega)
    · rw [hpy]
      rw [Nat.div_lt_iff_lt_mul (by omega)]
      calc j < model.size.1 * model.size.2 := by omega
        _ = model.size.2 * model.size.1 := Nat.mul_comm _ _

theorem accOk_push_none (w ml : Nat) (acc : List (Option Action))
    (h : AccOk w ml acc) (hlt : acc.length < ml) : AccOk w ml (acc ++ [none]) := by
  obtain ⟨hlen, hent⟩ := h
  refine ⟨by simp; omega, ?_⟩
  intro j a hj
  by_cases hjl : j < acc.length
  · rw [List.getElem?_append_left hjl] at hj
    exact hent j a hj
  · rw [List.getElem?_append_right (by omega)] at hj
    rcases Nat.eq_zero_or_pos (j - acc.length) with hz | hz
    · rw [hz] at hj
      simp at hj
    · rw [List.getElem?_eq_none (by simp; omega)] at hj
      exact absurd hj (by simp)

theorem accOk_push_item (w ml : Nat) (acc : List (Option Action)) (e : Emote) (pfx : String)
    (lbl : Bool) (img : Option Bytes) (h : AccOk w ml acc) (hlt : acc.length < ml)
    (hmod : ¬ acc.length % w = 0) :
    AccOk w ml (acc ++ [some (e.to_action pfx lbl img)]) := by
  obtain ⟨hlen, hent⟩ := h
  refine ⟨by simp; omega, ?_⟩
  intro j a hj
  by_cases hjl : j < acc.length
  · rw [List.getElem?_append_left hjl] at hj
    exact hent j a hj
  · rw [List.getElem?_append_right (by omega)] at hj
    rcases Nat.eq_zero_or_pos (j - acc.length) with hz | hz
    · rw [hz] at hj
      simp only [List.getElem?_cons_zero, Option.some.injEq] at hj
      have hje : j = acc.length := by omega
      subst hje
      refine ⟨hmod, ?_⟩
      rw [← hj]
      exact to_action_isText e pfx lbl img
    · rw [List.getElem?_eq_none (by simp; omega)] at hj
      exact absurd hj (by simp)

theorem len_slack (w h len : Nat) (hw : 2 ≤ w) (hmod : len % w = 0) (hlt : len < w * h) :
    len + 2 ≤ w * h := by
  obtain ⟨k, rfl⟩ := Nat.dvd_of_mod_eq_zero hmod
  have hk : k < h := Nat.lt_of_mul_lt_mul_left hlt
  calc w * k + 2 ≤ w * k + w := by omega
    _ = w * (k + 1) := by ring
    _ ≤ w * h := Nat.mul_le_mul_left w hk

theorem layoutStep_inv (root : Uuid) (model : DeviceModel) (dev nm pfx : String) (lbl : Bool)
    (st : List (Uuid × ProfileManifest) × List (Option Action)) (img : EmoteImage)
    (h : PhaseInv model st) :
    PhaseInv model (layoutStep root model dev nm pfx lbl st img) := by
  obtain ⟨hms, hacc⟩ := h
  obtain ⟨hsf1, hsf2, hsf3⟩ := size_facts model
  have hml4 : 4 ≤ model.size.1 * model.size.2 := Nat.mul_le_mul hsf1 hsf2
  simp only [layoutStep, PhaseInv]
  by_cases hf : model.size.1 * model.size.2 ≤ st.2.length
  · simp only [if_pos hf]
    constructor
    · intro um hum
      rcases List.mem_append.mp hum with h1 | h2
      · exact hms um h1
      · have : um = (if st.1.isEmpty then root else uuid_v5 nm st.1.length,
            (freshManifest model dev nm).set_actions st.2) := by simpa using h2
        rw [this]
        exact set_actions_contentOnly model dev nm st.2 hacc
    · have h0 : AccOk model.size.1 (model.size.1 * model.size.2)
          ([] : List (Option Action)) := by
        refine ⟨by simp, ?_⟩
        intro j a hj
        simp at hj
      have h0len : ([] : List (Option Action)).length % model.size.1 = 0 := by simp
      rw [if_pos h0len]
      have h1 : AccOk model.size.1 (model.size.1 * model.size.2)
          (([] : List (Option Action)) ++ [none]) :=
        accOk_push_none _ _ _ h0 (by simp; omega)
      have h1mod : ¬ (([] : List (Option Action)) ++ [none]).length % model.size.1 = 0 := by
        simp only [List.length_append, List.length_cons, List.length_nil, List.nil_append]
        have : (0 + 1) % model.size.1 = 1 := Nat.mod_eq_of_lt (by omega)
        simp only [Nat.zero_add] at this ⊢
        omega
      exact accOk_push_item _ _ _ _ _ _ _ h1 (by simp; omega) h1mod
  · simp only [if_neg hf]
    refine ⟨hms, ?_⟩
    have hlt : st.2.length < model.size.1 * model.size.2 := by omega
    by_cases hmod : st.2.length % model.size.1 = 0
    · rw [if_pos hmod]
      have h1 : AccOk model.size.1 (model.size.1 * model.size.2) (st.2 ++ [none]) :=
        accOk_push_none _ _ _ hacc hlt
      have hslack : st.2.length + 2 ≤ model.size.1 * model.size.2 :=
        len_slack model.size.1 model.size.2 st.2.length hsf1 hmod hlt
      have h1mod : ¬ (st.2 ++ [none]).length % model.size.1 = 0 := by
        simp only [List.length_append, List.length_cons, List.length_nil]
        rw [Nat.add_mod, hmod]
        have h1w : (1 : Nat) % model.size.1 = 1 := Nat.mod_eq_of_lt (by omega)
        rw [Nat.zero_add, h1w, h1w]
        omega
      exact accOk_push_item _ _ _ _ _ _ _ h1 (by simp; omega) h1mod
    · rw [if_neg hmod]
      exact accOk_push_item _ _ _ _ _ _ _ hacc hlt hmod

theorem contentManifests_contentOnly (root : Uuid) (model : DeviceModel) (dev nm : String)
    (images : List EmoteImage) (pfx : String) (lbl : Bool) :
    ∀ um ∈ contentManifests root model dev nm images pfx lbl,
      ContentOnly model.size.1 model.size.2 um.2 := by
  have hfold : ∀ (l : List EmoteImage) st, PhaseInv model st →
      PhaseInv model (l.foldl (layoutStep root model dev nm pfx lbl) st) := by
    intro l
    induction l with
    | nil => intro st hsi; exact hsi
    | cons x rest ih =>
        intro st hsi
        exact ih _ (layoutStep_inv root model dev nm pfx lbl st x hsi)
  have hinit : PhaseInv model (([], []) :
      List (Uuid × ProfileManifest) × List (Option Action)) := by
    refine ⟨by simp, by simp, ?_⟩
    intro j a hj
    simp at hj
  obtain ⟨hms, hacc⟩ := hfold images ([], []) hinit
  intro um hum
  simp only [contentManifests] at hum
  by_cases he : ((images.foldl (layoutStep root model dev nm pfx lbl) ([], []))).2.isEmpty
  · rw [if_pos he] at hum
    exact hms um hum
  · rw [if_neg he] at hum
    simp only [finalizePage] at hum
    rcases List.mem_append.mp hum with h1 | h2
    · exact hms um h1
    · have heq := List.mem_singleton.mp h2
      rw [heq]
      exact set_actions_contentOnly model dev nm _ hacc

/-! ## Navigation-pass characterization -/

theorem backPass_getElem? (l : List (Uuid × ProfileManifest)) (i : Nat) :
    (backPass l)[i]? =
      if i = 0 then l[i]?
      else (l[i]?).map (fun um => (um.1, insertAction um.2 ⟨0, 0⟩ backAction)) := by
  cases l with
  | nil => cases i <;> simp [backPass]
  | cons x rest =>
      cases i with
      | zero => simp [backPass]
      | succ j =>
          simp only [backPass, List.getElem?_cons_succ, if_neg (Nat.succ_ne_zero j)]
          rw [List.getElem?_map]

theorem forwardPass_getElem? (h : Nat) :
    ∀ (l : List (Uuid × ProfileManifest)) (c : Option Uuid) (i : Nat),
      ((forwardPass h l c).1)[i]? =
        match l[i]?, l[i + 1]? with
        | some um, some next =>
            some (um.1, insertAction um.2 ⟨0, h - 1⟩ (forwardAction next.1))
        | some um, none =>
            match c with
            | some cu => some (um.1, insertAction um.2 ⟨0, h - 1⟩ (forwardAction cu))
            | none => some um
        | none, _ => none := by
  intro l
  induction l with
  | nil =>
      intro c i
      cases i <;> rfl
  | cons x rest ih =>
      intro c i
      cases i with
      | zero =>
          cases rest with
          | nil => cases c <;> simp [forwardPass]
          | cons y rest2 => simp [forwardPass]
      | succ j =>
          have hcons : (forwardPass h (x :: rest) c).1 =
              (match (forwardPass h rest c).2 with
               | some c' => (x.1, insertAction x.2 ⟨0, h - 1⟩ (forwardAction c'))
               | none => x) :: (forwardPass h rest c).1 := rfl
          rw [hcons, List.getElem?_cons_succ, ih c j,
            List.getElem?_cons_succ, List.getElem?_cons_succ]

theorem pages_length (root : Uuid) (model : DeviceModel) (dev nm : String)
    (images : List EmoteImage) (pfx : String) (lbl : Bool) :
    (profilesWithImagesNew root model dev nm images pfx lbl).length =
      (contentManifests root model dev nm images pfx lbl).length := by
  simp only [profilesWithImagesNew]
  rw [forwardPass_length, backPass_length]

/-- Characterization of a final page: it is the content page at the same
index, with the Back button layered on when the index is non-zero, and
the Forward button carrying the next content page's identifier layered on
when a next page exists. -/
theorem final_page_char (root : Uuid) (model : DeviceModel) (dev nm : String)
    (images : List EmoteImage) (pfx : String) (lbl : Bool) (i : Nat)
    (mi : Uuid × ProfileManifest)
    (hmi : (profilesWithImagesNew root model dev nm images pfx lbl)[i]? = some mi) :
    ∃ um, (contentManifests root model dev nm images pfx lbl)[i]? = some um ∧
      mi.1 = um.1 ∧
      ((∃ next, (contentManifests root model dev nm images pfx lbl)[i + 1]? = some next ∧
          mi.2 = insertAction (if 1 ≤ i then insertAction um.2 ⟨0, 0⟩ backAction else um.2)
            ⟨0, model.size.2 - 1⟩ (forwardAction next.1) ∧
          ((profilesWithImagesNew root model dev nm images pfx lbl)[i + 1]?).map Prod.fst =
            some next.1) ∨
       ((contentManifests root model dev nm images pfx lbl)[i + 1]? = none ∧
          mi.2 = (if 1 ≤ i then insertAction um.2 ⟨0, 0⟩ backAction else um.2))) := by
  have hfl : ∀ k : Nat, (profilesWithImagesNew root model dev nm images pfx lbl)[k]? =
      ((forwardPass model.size.2
        (backPass (contentManifests root model dev nm images pfx lbl)) none).1)[k]? :=
    fun k => rfl
  rw [hfl i, forwardPass_getElem?] at hmi
  rw [backPass_getElem?, backPass_getElem?] at hmi
  rw [if_neg (Nat.succ_ne_zero i)] at hmi
  cases hms : (contentManifests root model dev nm images pfx lbl)[i]? with
  | none =>
      rw [hms] at hmi
      by_cases hi : i = 0 <;> simp [hi] at hmi
  | some um =>
      rw [hms] at hmi
      cases hnext : (contentManifests root model dev nm images pfx lbl)[i + 1]? with
      | none =>
          rw [hnext] at hmi
          refine ⟨um, rfl, ?_, ?_⟩
          · by_cases hi : i = 0
            · simp [hi] at hmi
              rw [← hmi]
            · simp [hi] at hmi
              rw [← hmi]
          · refine Or.inr ⟨rfl, ?_⟩
            by_cases hi : i = 0
            · simp [hi] at hmi ⊢
              rw [← hmi]
            · have hi1 : 1 ≤ i := by omega
              simp [hi, if_pos hi1] at hmi ⊢
              rw [← hmi]
      | some next =>
          rw [hnext] at hmi
          have hflnext : ((profilesWithImagesNew root model dev nm images pfx lbl)[i + 1]?).map
              Prod.fst = some next.1 := by
            rw [hfl (i + 1), forwardPass_getElem?]
            rw [backPass_getElem?, backPass_getElem?]
            rw [if_neg (Nat.succ_ne_zero i), hnext]
            cases hnn : (contentManifests root model dev nm images pfx lbl)[i + 1 + 1]? <;>
              simp
          refine ⟨um, rfl, ?_, ?_⟩
          · by_cases hi : i = 0
            · simp [hi] at hmi
              rw [← hmi]
            · simp [hi] at hmi
              rw [← hmi]
          · refine Or.inl ⟨next, rfl, ?_, hflnext⟩
            by_cases hi : i = 0
            · simp [hi] at hmi ⊢
              rw [← hmi]
            · have hi1 : 1 ≤ i := by omega
              simp [hi, if_pos hi1] at hmi ⊢
              rw [← hmi]

theorem insertAction_actions (m : ProfileManifest) (pos : Position) (a : Action)
    (p : Position) :
    (insertAction m pos a).actions p = if p = pos then some a else m.actions p := rfl

theorem contentOnly_col0 (w h : Nat) (m : ProfileManifest) (hc : ContentOnly w h m)
    (y : Nat) : m.actions ⟨0, y⟩ = none := by
  cases hm : m.actions ⟨0, y⟩ with
  | none => rfl
  | some a =>
      obtain ⟨hx, _, _, _⟩ := hc ⟨0, y⟩ a hm
      simp at hx

theorem pos00_ne_forward (h : Nat) (hh : 2 ≤ h) : (⟨0, 0⟩ : Position) ≠ ⟨0, h - 1⟩ := by
  simp only [ne_eq, Position.mk.injEq, true_and]
  omega

theorem getElem?_none_iff_pages (root : Uuid) (model : DeviceModel) (dev nm : String)
    (images : List EmoteImage) (pfx : String) (lbl : Bool) (k : Nat) :
    (profilesWithImagesNew root model dev nm images pfx lbl)[k]? = none ↔
      (contentManifests root model dev nm images pfx lbl)[k]? = none := by
  rw [List.getElem?_eq_none_iff, List.getElem?_eq_none_iff, pages_length]

/-- C3: every `Position` key occupied in any produced page's actions map
satisfies `x < width` and `y < height` — both for content placed by
`set_actions` (slot index to `(index mod width, index div width)`) and for
the injected Back/Forward buttons. -/
theorem layout_positions_in_bounds (model : DeviceModel) (root : Uuid) (dev nm : String)
    (images : List EmoteImage) (pfx : String) (lbl : Bool) :
    BoundsOk model.size.1 model.size.2 (profilesWithImagesNew root model dev nm images pfx lbl) := by
  obtain ⟨hw, hh, _⟩ := size_facts model
  intro i mi hmi p a hpa
  obtain ⟨um, hms, hfst, hcase⟩ := final_page_char root model dev nm images pfx lbl i mi hmi
  have hco : ContentOnly model.size.1 model.size.2 um.2 :=
    contentManifests_contentOnly root model dev nm images pfx lbl um (List.getElem?_mem hms)
  have hcontent : ∀ b : Action, um.2.actions p = some b → p.x < model.size.1 ∧ p.y < model.size.2 :=
    fun b hb => ⟨(hco p b hb).2.1, (hco p b hb).2.2.1⟩
  have hback : ∀ b : Action,
      (if 1 ≤ i then insertAction um.2 ⟨0, 0⟩ backAction else um.2).actions p = some b →
      p.x < model.size.1 ∧ p.y < model.size.2 := by
    intro b hb
    by_cases h1 : 1 ≤ i
    · rw [if_pos h1, insertAction_actions] at hb
      by_cases hp0 : p = (⟨0, 0⟩ : Position)
      · rw [hp0]
        exact ⟨show (0 : Nat) < model.size.1 by omega,
          show (0 : Nat) < model.size.2 by omega⟩
      · rw [if_neg hp0] at hb
        exact hcontent b hb
    · rw [if_neg h1] at hb
      exact hcontent b hb
  rcases hcase with ⟨next, hnext, hshape, _⟩ | ⟨hnext, hshape⟩
  · rw [hshape, insertAction_actions] at hpa
    by_cases hp : p = (⟨0, model.size.2 - 1⟩ : Position)
    · rw [hp]
      exact ⟨show (0 : Nat) < model.size.1 by omega,
        show model.size.2 - 1 < model.size.2 by omega⟩
    · rw [if_neg hp] at hpa
      exact hback a hpa
  · rw [hshape] at hpa
    exact hback a hpa

/-- Witness for C3 at a concrete one-page Mini layout. -/
theorem layout_positions_in_bounds_witness :
    BoundsOk DeviceModel.mini.size.1 DeviceModel.mini.size.2
      (profilesWithImagesNew [0] DeviceModel.mini "" "E"
        [⟨⟨"a", "u"⟩, []⟩] "" false) :=
  layout_positions_in_bounds DeviceModel.mini [0] "" "E" [⟨⟨"a", "u"⟩, []⟩] "" false

/-- C2: in a multi-page layout the root page holds no Back button, every
page `1..p-1` holds the Back button at `(0, 0)`, every page `0..p-2`
holds at `(0, height - 1)` the Forward button whose `ProfileUUID` is the
next produced page's identifier, and the last page holds no Forward
button. -/
theorem layout_nav_chain (model : DeviceModel) (root : Uuid) (dev nm : String)
    (images : List EmoteImage) (pfx : String) (lbl : Bool)
    (hp : 1 < (profilesWithImagesNew root model dev nm images pfx lbl).length) :
    NavChainOk model.size.2 (profilesWithImagesNew root model dev nm images pfx lbl) := by
  obtain ⟨hw, hh, _⟩ := size_facts model
  have hne := pos00_ne_forward model.size.2 hh
  refine ⟨?_, ?_, ?_, ?_⟩
  · -- root page holds no Back button
    intro m0 hm0 p a hpa
    obtain ⟨um, hms, _, hcase⟩ := final_page_char root model dev nm images pfx lbl 0 m0 hm0
    have hco : ContentOnly model.size.1 model.size.2 um.2 :=
      contentManifests_contentOnly root model dev nm images pfx lbl um (List.getElem?_mem hms)
    have htext : ∀ b : Action, um.2.actions p = some b →
        b.settings ≠ Settings.backToParent := by
      intro b hb hcon
      obtain ⟨se, pt, hst⟩ := (hco p b hb).2.2.2
      rw [hst] at hcon
      exact Settings.noConfusion hcon
    rcases hcase with ⟨next, hnext, hshape, _⟩ | ⟨hnext, hshape⟩
    · rw [if_neg (by omega : ¬ (1 : Nat) ≤ 0)] at hshape
      rw [hshape, insertAction_actions] at hpa
      by_cases hpf : p = (⟨0, model.size.2 - 1⟩ : Position)
      · rw [if_pos hpf] at hpa
        intro hcon
        rw [← Option.some.inj hpa] at hcon
        exact Settings.noConfusion hcon
      · rw [if_neg hpf] at hpa
        exact htext a hpa
    · rw [if_neg (by omega : ¬ (1 : Nat) ≤ 0)] at hshape
      rw [hshape] at hpa
      exact htext a hpa
  · -- pages 1.. hold the Back button at (0, 0)
    intro i mi h1 hmi
    obtain ⟨um, hms, _, hcase⟩ := final_page_char root model dev nm images pfx lbl i mi hmi
    rcases hcase with ⟨next, hnext, hshape, _⟩ | ⟨hnext, hshape⟩
    · rw [if_pos h1] at hshape
      rw [hshape, insertAction_actions, if_neg hne, insertAction_actions, if_pos rfl]
    · rw [if_pos h1] at hshape
      rw [hshape, insertAction_actions, if_pos rfl]
  · -- non-terminal pages hold the Forward button to the next page
    intro i mi next hmi hnext
    obtain ⟨um, hms, _, hcase⟩ := final_page_char root model dev nm images pfx lbl i mi hmi
    rcases hcase with ⟨nextms, hnextms, hshape, hmap⟩ | ⟨hnone, _⟩
    · rw [hnext] at hmap
      have hmap' : next.1 = nextms.1 := by simpa using hmap
      rw [hshape, insertAction_actions, if_pos rfl, hmap']
    · have hflnone := (getElem?_none_iff_pages root model dev nm images pfx lbl (i + 1)).mpr hnone
      rw [hnext] at hflnone
      exact absurd hflnone (by simp)
  · -- the last page holds no Forward button
    intro mlast hmlast p a hpa
    have hsome : (profilesWithImagesNew root model dev nm images pfx lbl).length - 1 <
        (profilesWithImagesNew root model dev nm images pfx lbl).length := by
      by_contra hge
      rw [List.getElem?_eq_none (by omega)] at hmlast
      exact absurd hmlast (by simp)
    obtain ⟨um, hms, _, hcase⟩ := final_page_char root model dev nm images pfx lbl
      ((profilesWithImagesNew root model dev nm images pfx lbl).length - 1) mlast hmlast
    have hco : ContentOnly model.size.1 model.size.2 um.2 :=
      contentManifests_contentOnly root model dev nm images pfx lbl um (List.getElem?_mem hms)
    have htext : ∀ b : Action, um.2.actions p = some b →
        ∀ u, b.settings ≠ Settings.openChild u := by
      intro b hb u hcon
      obtain ⟨se, pt, hst⟩ := (hco p b hb).2.2.2
      rw [hst] at hcon
      exact Settings.noConfusion hcon
    have hnone : (contentManifests root model dev nm images pfx lbl)[
        (profilesWithImagesNew root model dev nm images pfx lbl).length - 1 + 1]? = none := by
      apply List.getElem?_eq_none
      rw [← pages_length root model dev nm images pfx lbl]
      omega
    rcases hcase with ⟨next, hnextms, _, _⟩ | ⟨_, hshape⟩
    · rw [hnone] at hnextms
      exact absurd hnextms (by simp)
    · by_cases h1 : 1 ≤ (profilesWithImagesNew root model dev nm images pfx lbl).length - 1
      · rw [if_pos h1] at hshape
        rw [hshape, insertAction_actions] at hpa
        by_cases hp0 : p = (⟨0, 0⟩ : Position)
        · rw [if_pos hp0] at hpa
          intro u hcon
          rw [← Option.some.inj hpa] at hcon
          exact Settings.noConfusion hcon
        · rw [if_neg hp0] at hpa
          exact htext a hpa
      · rw [if_neg h1] at hshape
        rw [hshape] at hpa
        exact htext a hpa

set_option maxRecDepth 100000 in
/-- Witness for C2: 13 items on the Standard grid (content capacity 12)
produce 2 pages. -/
theorem layout_nav_chain_witness :
    1 < (profilesWithImagesNew [0] DeviceModel.standard "" "Emotes"
      (List.replicate 13 ⟨⟨"a", "u"⟩, []⟩) "" false).length ∧
    NavChainOk DeviceModel.standard.size.2
      (profilesWithImagesNew [0] DeviceModel.standard "" "Emotes"
        (List.replicate 13 ⟨⟨"a", "u"⟩, []⟩) "" false) :=
  ⟨by decide,
   layout_nav_chain DeviceModel.standard [0] "" "Emotes"
     (List.replicate 13 ⟨⟨"a", "u"⟩, []⟩) "" false
     (by decide)⟩

/-- C8: content (Text) buttons never occupy column 0; `(0, 0)` holds the
Back button exactly on non-root pages, `(0, height - 1)` holds the
Forward button exactly on non-terminal pages, and every other column-0
position is absent from the actions map (the row-leading placeholder
slots stay empty). -/
theorem layout_nav_column (model : DeviceModel) (root : Uuid) (dev nm : String)
    (images : List EmoteImage) (pfx : String) (lbl : Bool) :
    NavColumnOk model.size.2 (profilesWithImagesNew root model dev nm images pfx lbl) := by
  obtain ⟨hw, hh, _⟩ := size_facts model
  have hne := pos00_ne_forward model.size.2 hh
  have hpy0 : ∀ y : Nat, y ≠ 0 → (⟨0, y⟩ : Position) ≠ ⟨0, 0⟩ :=
    fun y hy hcon => hy (congrArg Position.y hcon)
  have hpyh : ∀ y : Nat, y ≠ model.size.2 - 1 →
      (⟨0, y⟩ : Position) ≠ ⟨0, model.size.2 - 1⟩ :=
    fun y hy hcon => hy (congrArg Position.y hcon)
  intro i mi hmi
  obtain ⟨um, hms, _, hcase⟩ := final_page_char root model dev nm images pfx lbl i mi hmi
  have hco : ContentOnly model.size.1 model.size.2 um.2 :=
    contentManifests_contentOnly root model dev nm images pfx lbl um (List.getElem?_mem hms)
  have hcol0 : ∀ y : Nat, um.2.actions ⟨0, y⟩ = none :=
    contentOnly_col0 model.size.1 model.size.2 um.2 hco
  have hX0 : (if 1 ≤ i then insertAction um.2 ⟨0, 0⟩ backAction else um.2).actions ⟨0, 0⟩ =
      (if 1 ≤ i then some backAction else none) := by
    by_cases h1 : 1 ≤ i
    · rw [if_pos h1, if_pos h1, insertAction_actions, if_pos rfl]
    · rw [if_neg h1, if_neg h1]
      exact hcol0 0
  have hXy : ∀ y : Nat, y ≠ 0 →
      (if 1 ≤ i then insertAction um.2 ⟨0, 0⟩ backAction else um.2).actions ⟨0, y⟩ = none := by
    intro y hy
    by_cases h1 : 1 ≤ i
    · rw [if_pos h1, insertAction_actions, if_neg (hpy0 y hy)]
      exact hcol0 y
    · rw [if_neg h1]
      exact hcol0 y
  rcases hcase with ⟨next, hnextms, hshape, hmap⟩ | ⟨hnone, hshape⟩
  · refine ⟨?_, ?_, ?_, ?_, ?_⟩
    · rw [hshape, insertAction_actions, if_neg hne]
      exact hX0
    · intro next2 hnext2
      rw [hnext2] at hmap
      have hmap' : next2.1 = next.1 := by simpa using hmap
      rw [hshape, insertAction_actions, if_pos rfl, hmap']
    · intro hflnone
      have := (getElem?_none_iff_pages root model dev nm images pfx lbl (i + 1)).mp hflnone
      rw [hnextms] at this
      exact absurd this (by simp)
    · intro y hy0 hyh
      rw [hshape, insertAction_actions, if_neg (hpyh y hyh)]
      exact hXy y hy0
    · intro y a ha se pt hcon
      rw [hshape, insertAction_actions] at ha
      by_cases hpf : (⟨0, y⟩ : Position) = ⟨0, model.size.2 - 1⟩
      · rw [if_pos hpf] at ha
        rw [← Option.some.inj ha] at hcon
        exact Settings.noConfusion hcon
      · rw [if_neg hpf] at ha
        by_cases hp0 : (⟨0, y⟩ : Position) = ⟨0, 0⟩
        · have hy0 : y = 0 := congrArg Position.y hp0
          rw [hy0] at ha
          rw [hX0] at ha
          by_cases h1 : 1 ≤ i
          · rw [if_pos h1] at ha
            rw [← Option.some.inj ha] at hcon
            exact Settings.noConfusion hcon
          · rw [if_neg h1] at ha
            exact absurd ha (by simp)
        · have hy0 : y ≠ 0 := fun hcon2 => hp0 (by rw [hcon2])
          rw [hXy y hy0] at ha
          exact absurd ha (by simp)
  · refine ⟨?_, ?_, ?_, ?_, ?_⟩
    · rw [hshape]
      exact hX0
    · intro next2 hnext2
      have := (getElem?_none_iff_pages root model dev nm images pfx lbl (i + 1)).mpr hnone
      rw [hnext2] at this
      exact absurd this (by simp)
    · intro _
      rw [hshape]
      have hyh : model.size.2 - 1 ≠ 0 := by omega
      by_cases h1 : 1 ≤ i
      · rw [if_pos h1, insertAction_actions, if_neg (hpy0 (model.size.2 - 1) hyh)]
        exact hcol0 (model.size.2 - 1)
      · rw [if_neg h1]
        exact hcol0 (model.size.2 - 1)
    · intro y hy0 _
      rw [hshape]
      exact hXy y hy0
    · intro y a ha se pt hcon
      rw [hshape] at ha
      by_cases hp0 : (⟨0, y⟩ : Position) = ⟨0, 0⟩
      · have hy0 : y = 0 := congrArg Position.y hp0
        rw [hy0, hX0] at ha
        by_cases h1 : 1 ≤ i
        · rw [if_pos h1] at ha
          rw [← Option.some.inj ha] at hcon
          exact Settings.noConfusion hcon
        · rw [if_neg h1] at ha
          exact absurd ha (by simp)
      · have hy0 : y ≠ 0 := fun hcon2 => hp0 (by rw [hcon2])
        rw [hXy y hy0] at ha
        exact absurd ha (by simp)

set_option maxRecDepth 100000 in
/-- Witness for C8 at a concrete two-page Mini layout (5 items,
content capacity 4). -/
theorem layout_nav_column_witness :
    NavColumnOk DeviceModel.mini.size.2
      (profilesWithImagesNew [0] DeviceModel.mini "" "Emotes"
        (List.replicate 5 ⟨⟨"a", "u"⟩, []⟩) "" false) :=
  layout_nav_column DeviceModel.mini [0] "" "Emotes"
    (List.replicate 5 ⟨⟨"a", "u"⟩, []⟩) "" false

end StreamDeck
